import Mathlib

/-!
# Verification of the IFC type extraction core (src/ifc_extractor.py)

Shallow embedding of the traversal/aggregation engine of `IFCExtractor`:
the recursive `extract_ifc_types` walk, its classification step, and the
ranking sort used by `display_results`.

Modelling conventions:

* A Python runtime value is a `Value`: a string, a list, an object with a
  `__dict__` (modelled as an ordered association list of attribute
  name/value pairs, the insertion order of a Python instance dict), or
  `None`.  Deserialized Speckle `Base` objects store their dynamic
  attributes (`elements`, `GlobalId`, ...) in the instance `__dict__`, so
  `hasattr`/`getattr` and the `data.__dict__.items()` loop of the source
  range over the same attribute store; `speckle_type` is kept in the same
  store (it is a string, which the `__dict__` loop skips anyway, so the
  single store is behaviourally faithful).
* `hasattr(data, '__dict__')` holds exactly for `Value.obj`;
  strings, lists and `None` have no `__dict__`.
* Python truthiness: a string or list is truthy iff non-empty, an object
  is truthy, `None` is falsy.
* The aggregation dict `ifc_types` is an insertion-ordered association
  list from the `speckle_type` key to a bucket `{count, instances}`.
-/

inductive Value where
  | vstr (s : String)
  | vlist (l : List Value)
  | obj (attrs : List (String × Value))
  | vnull

mutual

/-- Boolean equality on `Value` (the derive handler does not support this
nested inductive, so equality is spelled out). -/
def Value.beq : Value → Value → Bool
  | Value.vstr a, Value.vstr b => a == b
  | Value.vlist a, Value.vlist b => Value.beqList a b
  | Value.obj a, Value.obj b => Value.beqAttrs a b
  | Value.vnull, Value.vnull => true
  | _, _ => false

def Value.beqList : List Value → List Value → Bool
  | [], [] => true
  | x :: xs, y :: ys => Value.beq x y && Value.beqList xs ys
  | _, _ => false

def Value.beqAttrs : List (String × Value) → List (String × Value) → Bool
  | [], [] => true
  | (n, v) :: xs, (m, w) :: ys => n == m && Value.beq v w && Value.beqAttrs xs ys
  | _, _ => false

end

mutual

theorem Value.beq_iff (a b : Value) : Value.beq a b = true ↔ a = b := by
  cases a <;> cases b <;> simp [Value.beq]
  case vlist.vlist xs ys => exact Value.beqList_iff xs ys
  case obj.obj xs ys => exact Value.beqAttrs_iff xs ys
termination_by sizeOf a

theorem Value.beqList_iff (a b : List Value) : Value.beqList a b = true ↔ a = b := by
  cases a <;> cases b <;> simp [Value.beqList]
  case cons.cons x xs y ys =>
    rw [Value.beq_iff x y, Value.beqList_iff xs ys]
termination_by sizeOf a

theorem Value.beqAttrs_iff (a b : List (String × Value)) :
    Value.beqAttrs a b = true ↔ a = b := by
  cases a with
  | nil => cases b <;> simp [Value.beqAttrs]
  | cons x xs =>
    obtain ⟨n, v⟩ := x
    cases b with
    | nil => simp [Value.beqAttrs]
    | cons y ys =>
      obtain ⟨m, w⟩ := y
      simp [Value.beqAttrs]
      rw [Value.beq_iff v w, Value.beqAttrs_iff xs ys]
termination_by sizeOf a

end

instance : DecidableEq Value := fun a b => decidable_of_iff _ (Value.beq_iff a b)

/-- One entry of the `instance_info` dict built at source lines 163-168. -/
structure InstanceInfo where
  GlobalId : Value
  Name : Value
  ObjectType : Value
  Tag : Value
deriving DecidableEq

/-- One value of the `ifc_types` dict: `{'count': ..., 'instances': [...]}`. -/
structure Bucket where
  count : Nat
  instances : List InstanceInfo
deriving DecidableEq

/-- The `ifc_types` aggregation dict, in insertion order. -/
abbrev Agg := List (Value × Bucket)

/-- Attribute lookup in an object's `__dict__` (first match; a Python dict
has unique keys, so first-match lookup models it). -/
def lookupAttr : List (String × Value) → String → Option Value
  | [], _ => none
  | (n, v) :: rest, key => if n = key then some v else lookupAttr rest key

/-- Python truthiness of a `Value`. -/
def truthy : Value → Bool
  | Value.vstr s => !s.isEmpty
  | Value.vlist l => !l.isEmpty
  | Value.obj _ => true
  | Value.vnull => false

/-- `getattr(data, name, default)`: the three-argument `getattr` used by
the classification step; never fails. -/
def getattrD (attrs : List (String × Value)) (name : String) (default : Value) : Value :=
  match lookupAttr attrs name with
  | some v => v
  | none => default

def unknownV : Value := Value.vstr "Unknown"

/-- The geometry sentinel `'Objects.Geometry.Mesh'` (source line 153). -/
def meshSentinel : Value := Value.vstr "Objects.Geometry.Mesh"

/-- The `instance_info` dict of source lines 163-168. -/
def buildInstance (attrs : List (String × Value)) : InstanceInfo :=
  { GlobalId := getattrD attrs "GlobalId" unknownV
    Name := getattrD attrs "Name" unknownV
    ObjectType := getattrD attrs "ObjectType" unknownV
    Tag := getattrD attrs "Tag" unknownV }

/-- Dict lookup in the aggregation (`ifc_type in ifc_types` / indexing). -/
def aggFind : Agg → Value → Option Bucket
  | [], _ => none
  | (k, b) :: rest, key => if k = key then some b else aggFind rest key

/-- Source lines 154-169: ensure the bucket exists (a new key is appended,
preserving the dict's insertion order), increment its count and append the
instance record. -/
def aggUpdate (agg : Agg) (key : Value) (info : InstanceInfo) : Agg :=
  match agg with
  | [] => [(key, { count := 1, instances := [info] })]
  | (k, b) :: rest =>
      if k = key then (k, { count := b.count + 1, instances := b.instances ++ [info] }) :: rest
      else (k, b) :: aggUpdate rest key info

/-- Source lines 148-169: the classification step on a node's `__dict__`.
`hasattr(data, 'speckle_type') and data.speckle_type` is attribute lookup
plus truthiness; a node whose `speckle_type` equals the geometry sentinel
is skipped.  (Python `!=` between a non-string value and a string is
`True`, which the `Value`-level disequality reproduces.) -/
def classifyNode (attrs : List (String × Value)) (agg : Agg) : Agg :=
  match lookupAttr attrs "speckle_type" with
  | some t =>
      if truthy t then
        if t = meshSentinel then agg
        else aggUpdate agg t (buildInstance attrs)
      else agg
  | none => agg

/-- Whether the classification step of `classifyNode` fires on this
`__dict__`: a present, truthy `speckle_type` different from the sentinel. -/
def isEntityDict (attrs : List (String × Value)) : Bool :=
  match lookupAttr attrs "speckle_type" with
  | some t => truthy t && decide (t ≠ meshSentinel)
  | none => false

/-- `attr_name.startswith('_')` for the one-character prefix the source
checks: whether the attribute name's first character is an underscore. -/
def startsWithUnderscore (s : String) : Bool :=
  match s.data with
  | [] => false
  | c :: _ => c == '_'

/-- `hasattr(item, '__dict__')`. -/
def isObjV : Value → Bool
  | Value.obj _ => true
  | _ => false

/-- Source lines 180-181: the body of `for item in attr_value`, recursing
(`recurse` is the traversal at `current_depth + 1`) only into items that
expose a `__dict__`. -/
def itemStep (recurse : Value → Agg → Agg) (a : Agg) (i : Value) : Agg :=
  if isObjV i then recurse i a else a

/-- Source lines 177-181: the body of the loop over `data.__dict__.items()`:
an attribute is walked when its name does not start with an underscore and
its value is a list. -/
def attrStep (recurse : Value → Agg → Agg) (a : Agg) (p : String × Value) : Agg :=
  if startsWithUnderscore p.1 then a
  else
    match p.2 with
    | Value.vlist items => items.foldl (itemStep recurse) a
    | _ => a

/-- Source lines 139-183, `extract_ifc_types` with an explicit aggregation
argument.  The one deviation forced by the embedding, behaviour-preserving
on deserialized graphs: iterating a truthy non-list `elements` value is
modelled as a no-op (for a string, Python iterates its characters, and the
recursive call on a character is a no-op since strings have no `__dict__`;
deserialized graphs never store a bare non-iterable there).  Note that the
`__dict__` loop of lines 177-181 does NOT exclude `elements`, so a list
stored under `elements` is walked a second time by that loop. -/
def extractAux (data : Value) (ifc_types : Agg) (max_depth current_depth : Nat) : Agg :=
  if _h : current_depth > max_depth then ifc_types
  else
    match data with
    | Value.obj attrs =>
        let a1 := classifyNode attrs ifc_types
        let a2 :=
          match lookupAttr attrs "elements" with
          | some (Value.vlist es) =>
              es.foldl (fun a e => extractAux e a max_depth (current_depth + 1)) a1
          | _ => a1
        attrs.foldl (attrStep (fun c a => extractAux c a max_depth (current_depth + 1))) a2
    | _ => ifc_types
termination_by max_depth + 1 - current_depth
decreasing_by all_goals omega

/-- The public call `extract_ifc_types(data, ifc_types, max_depth,
current_depth)`: a `None` aggregation argument is replaced by a fresh
empty dict (source lines 141-142). -/
def extract_call (data : Value) (ifc_types : Option Agg) (max_depth current_depth : Nat) : Agg :=
  extractAux data (ifc_types.getD []) max_depth current_depth

/-- `extract_ifc_types(data)` with all defaults: `ifc_types=None`,
`max_depth=10`, `current_depth=0`. -/
def extract_ifc_types (data : Value) : Agg :=
  extract_call data Option.none 10 0

/-! ## The end-to-end scenario of spec §8.7 -/

/-- `NodeA(type="Wall", GlobalId="g1")`. -/
def nodeA : Value :=
  Value.obj [("speckle_type", Value.vstr "Wall"), ("GlobalId", Value.vstr "g1")]

/-- The mesh node `NodeA(type="Objects.Geometry.Mesh")`. -/
def nodeMesh : Value :=
  Value.obj [("speckle_type", Value.vstr "Objects.Geometry.Mesh")]

/-- `NodeC(type="Wall", GlobalId="g3")`. -/
def nodeC : Value :=
  Value.obj [("speckle_type", Value.vstr "Wall"), ("GlobalId", Value.vstr "g3")]

/-- `NodeB(type="Door", GlobalId="g2", elements=[NodeC])`. -/
def nodeB : Value :=
  Value.obj [("speckle_type", Value.vstr "Door"), ("GlobalId", Value.vstr "g2"),
             ("elements", Value.vlist [nodeC])]

/-- The scenario root: `elements = [NodeA, mesh node, NodeB]`. -/
def scenarioRoot : Value :=
  Value.obj [("elements", Value.vlist [nodeA, nodeMesh, nodeB])]

/-- An `InstanceRecord` whose only known field is its `GlobalId`. -/
def recOf (gid : String) : InstanceInfo :=
  { GlobalId := Value.vstr gid, Name := unknownV, ObjectType := unknownV, Tag := unknownV }

/-! ## Specification-side view of the traversal: visited entities and
depth-indexed reachability -/

/-- The children a node's `elements` branch (source lines 172-174) iterates. -/
def elemsChildren (attrs : List (String × Value)) : List Value :=
  match lookupAttr attrs "elements" with
  | some (Value.vlist es) => es
  | _ => []

/-- The children the `__dict__` loop (source lines 177-181) recurses into
from one attribute: items of a non-underscore list attribute that expose a
`__dict__`. -/
def attrChildOf (p : String × Value) : List Value :=
  if startsWithUnderscore p.1 then []
  else
    match p.2 with
    | Value.vlist items => items.filter isObjV
    | _ => []

/-- The children the `__dict__` loop (source lines 177-181) recurses into. -/
def attrChildren (attrs : List (String × Value)) : List Value :=
  attrs.flatMap attrChildOf

/-- All values on which the traversal makes a recursive call from a node. -/
def childrenOf : Value → List Value
  | Value.obj attrs => elemsChildren attrs ++ attrChildren attrs
  | _ => []

/-- A classifiable entity: an object whose classification step fires. -/
def isEntityValue : Value → Bool
  | Value.obj attrs => isEntityDict attrs
  | _ => false

/-- The classification step on an arbitrary value (a no-op on values
without a `__dict__`). -/
def classifyValue (v : Value) (agg : Agg) : Agg :=
  match v with
  | Value.obj attrs => classifyNode attrs agg
  | _ => agg

/-- The nodes the depth-bounded traversal classifies, in classification
order and with multiplicity, starting from `data` at `current_depth`. -/
def visitsAux (data : Value) (max_depth current_depth : Nat) : List Value :=
  if _h : current_depth > max_depth then []
  else
    match data with
    | Value.obj attrs =>
        (if isEntityDict attrs then [Value.obj attrs] else []) ++
        (elemsChildren attrs).flatMap (fun e => visitsAux e max_depth (current_depth + 1)) ++
        (attrChildren attrs).flatMap (fun c => visitsAux c max_depth (current_depth + 1))
    | _ => []
termination_by max_depth + 1 - current_depth
decreasing_by all_goals omega

/-- `ReachN j v u`: `u` is reachable from `v` along a chain of exactly `j`
recursive-call edges of the traversal. -/
inductive ReachN : Nat → Value → Value → Prop where
  | refl (v : Value) : ReachN 0 v v
  | step {j : Nat} {v c u : Value} : c ∈ childrenOf v → ReachN j c u → ReachN (j + 1) v u

/-- The count/sample invariant of spec §8.4. -/
def countConsistent (agg : Agg) : Prop :=
  ∀ p ∈ agg, p.2.count = p.2.instances.length

/-! ## The ranking sort of `display_results` (source lines 222-223)

`sorted(ifc_types.items(), key=lambda x: x[1]['count'], reverse=True)`:
Python's `sorted` is a stable sort, and `reverse=True` reverses the key
comparison without disturbing the relative order of equal keys.  The
extensionally equal stable descending sort is spelled as an insertion
sort: an element is inserted after every earlier element with a strictly
greater count and before the first element whose count does not exceed
its own. -/

/-- Insert one bucket into an already ranked list, keeping it after
strictly greater counts only. -/
def insertRanked (x : Value × Bucket) : Agg → Agg
  | [] => [x]
  | y :: ys => if y.2.count > x.2.count then y :: insertRanked x ys else x :: y :: ys

/-- `sorted(..., key=count, reverse=True)`: stable descending sort. -/
def ranked (l : Agg) : Agg := l.foldr insertRanked []

/-! ## Error-aware view of the classification step (for the totality claim)

CPython's three-argument `getattr` is the two-argument one wrapped in a
handler for `AttributeError`; the embedding spells that out so that the
absence of an error branch is a theorem rather than a modelling choice. -/

/-- Two-argument `getattr`: raises `AttributeError` when missing. -/
def getattr2 (attrs : List (String × Value)) (name : String) : Except String Value :=
  match lookupAttr attrs name with
  | some v => Except.ok v
  | none => Except.error "AttributeError"

/-- Three-argument `getattr`: the two-argument form with the error caught
and replaced by the default. -/
def getattr3 (attrs : List (String × Value)) (name : String) (default : Value) :
    Except String Value :=
  match getattr2 attrs name with
  | Except.ok v => Except.ok v
  | Except.error _ => Except.ok default

/-- The `instance_info` construction with every lookup in the error monad. -/
def buildInstanceE (attrs : List (String × Value)) : Except String InstanceInfo := do
  let g ← getattr3 attrs "GlobalId" unknownV
  let n ← getattr3 attrs "Name" unknownV
  let o ← getattr3 attrs "ObjectType" unknownV
  let t ← getattr3 attrs "Tag" unknownV
  pure { GlobalId := g, Name := n, ObjectType := o, Tag := t }

/-- The classification step with its lookups in the error monad. -/
def classifyNodeE (attrs : List (String × Value)) (agg : Agg) : Except String Agg :=
  match lookupAttr attrs "speckle_type" with
  | some t =>
      if truthy t then
        if t = meshSentinel then Except.ok agg
        else do
          let info ← buildInstanceE attrs
          pure (aggUpdate agg t info)
      else Except.ok agg
  | none => Except.ok agg

/-! ## Graph model with sharing and cycles (for the termination claim)

`Value` is an inductive tree, so a Python object graph with back-references
has no direct image there.  `GValue` replaces inline objects by references
into a finite store, which can be cyclic; the traversal over it is defined
on explicit fuel, and the termination claim becomes: any fuel of at least
`max_depth + 1 - current_depth` yields the same result, i.e. the recursion
depth of the source function is bounded by `max_depth + 1`. -/

inductive GValue where
  | gstr (s : String)
  | gref (id : Nat)
  | glist (l : List GValue)
  | gnull

mutual

def GValue.beq : GValue → GValue → Bool
  | GValue.gstr a, GValue.gstr b => a == b
  | GValue.gref a, GValue.gref b => a == b
  | GValue.glist a, GValue.glist b => GValue.beqList a b
  | GValue.gnull, GValue.gnull => true
  | _, _ => false

def GValue.beqList : List GValue → List GValue → Bool
  | [], [] => true
  | x :: xs, y :: ys => GValue.beq x y && GValue.beqList xs ys
  | _, _ => false

end

mutual

theorem GValue.gbeq_iff (a b : GValue) : GValue.beq a b = true ↔ a = b := by
  cases a <;> cases b <;> simp [GValue.beq]
  case glist.glist xs ys => exact GValue.gbeqList_iff xs ys
termination_by sizeOf a

theorem GValue.gbeqList_iff (a b : List GValue) : GValue.beqList a b = true ↔ a = b := by
  cases a <;> cases b <;> simp [GValue.beqList]
  case cons.cons x xs y ys =>
    rw [GValue.gbeq_iff x y, GValue.gbeqList_iff xs ys]
termination_by sizeOf a

end

instance : DecidableEq GValue := fun a b => decidable_of_iff _ (GValue.gbeq_iff a b)

/-- A stored object: its `__dict__`. -/
structure GNode where
  attrs : List (String × GValue)

/-- The object store; a `gref id` points at index `id`. -/
abbrev GGraph := List GNode

structure GInstanceInfo where
  GlobalId : GValue
  Name : GValue
  ObjectType : GValue
  Tag : GValue

structure GBucket where
  count : Nat
  instances : List GInstanceInfo

abbrev GAgg := List (GValue × GBucket)

def glookupAttr : List (String × GValue) → String → Option GValue
  | [], _ => none
  | (n, v) :: rest, key => if n = key then some v else glookupAttr rest key

def gtruthy : GValue → Bool
  | GValue.gstr s => !s.isEmpty
  | GValue.glist l => !l.isEmpty
  | GValue.gref _ => true
  | GValue.gnull => false

def ggetattrD (attrs : List (String × GValue)) (name : String) (default : GValue) : GValue :=
  match glookupAttr attrs name with
  | some v => v
  | none => default

def gunknown : GValue := GValue.gstr "Unknown"

def gmeshSentinel : GValue := GValue.gstr "Objects.Geometry.Mesh"

def gbuildInstance (attrs : List (String × GValue)) : GInstanceInfo :=
  { GlobalId := ggetattrD attrs "GlobalId" gunknown
    Name := ggetattrD attrs "Name" gunknown
    ObjectType := ggetattrD attrs "ObjectType" gunknown
    Tag := ggetattrD attrs "Tag" gunknown }

def gaggUpdate (agg : GAgg) (key : GValue) (info : GInstanceInfo) : GAgg :=
  match agg with
  | [] => [(key, { count := 1, instances := [info] })]
  | (k, b) :: rest =>
      if k = key then (k, { count := b.count + 1, instances := b.instances ++ [info] }) :: rest
      else (k, b) :: gaggUpdate rest key info

def gclassifyNode (attrs : List (String × GValue)) (agg : GAgg) : GAgg :=
  match glookupAttr attrs "speckle_type" with
  | some t =>
      if gtruthy t then
        if t = gmeshSentinel then agg
        else gaggUpdate agg t (gbuildInstance attrs)
      else agg
  | none => agg

/-- `hasattr(item, '__dict__')` in the store model: only references point
at objects. -/
def isGRef : GValue → Bool
  | GValue.gref _ => true
  | _ => false

/-- Source lines 180-181 over the store model. -/
def gItemStep (recurse : GValue → GAgg → GAgg) (a : GAgg) (i : GValue) : GAgg :=
  if isGRef i then recurse i a else a

/-- Source lines 177-181 over the store model. -/
def gAttrStep (recurse : GValue → GAgg → GAgg) (a : GAgg) (p : String × GValue) : GAgg :=
  if startsWithUnderscore p.1 then a
  else
    match p.2 with
    | GValue.glist items => items.foldl (gItemStep recurse) a
    | _ => a

/-- `extract_ifc_types` over the possibly-cyclic store, with explicit call
fuel: fuel 0 stands for a call that has not returned (the quantity the
termination claim bounds); every recursive call spends one unit.  A
dangling reference (no stored object) cannot arise from a Python object
graph and is read as an attribute-less object. -/
def extractGF (g : GGraph) : Nat → GValue → GAgg → Nat → Nat → GAgg
  | 0, _, agg, _, _ => agg
  | fuel + 1, v, agg, max_depth, current_depth =>
    if current_depth > max_depth then agg
    else
      match v with
      | GValue.gref id =>
          match g.get? id with
          | some node =>
              let a1 := gclassifyNode node.attrs agg
              let a2 :=
                match glookupAttr node.attrs "elements" with
                | some (GValue.glist es) =>
                    es.foldl (fun a e => extractGF g fuel e a max_depth (current_depth + 1)) a1
                | _ => a1
              node.attrs.foldl
                (gAttrStep (fun c a => extractGF g fuel c a max_depth (current_depth + 1))) a2
          | none => agg
      | _ => agg

/-- Fuel-saturated twin of `extractAux`, structurally recursive on `fuel`
so that the kernel can evaluate it on concrete inputs; `extractFuel_eq`
shows that any fuel of at least `max_depth + 1 - current_depth` computes
`extractAux`. -/
def extractFuel : Nat → Value → Agg → Nat → Nat → Agg
  | 0, _, agg, _, _ => agg
  | fuel + 1, data, agg, max_depth, current_depth =>
    if current_depth > max_depth then agg
    else
      match data with
      | Value.obj attrs =>
          let a1 := classifyNode attrs agg
          let a2 :=
            match lookupAttr attrs "elements" with
            | some (Value.vlist es) =>
                es.foldl (fun a e => extractFuel fuel e a max_depth (current_depth + 1)) a1
            | _ => a1
          attrs.foldl
            (attrStep (fun c a => extractFuel fuel c a max_depth (current_depth + 1))) a2
      | _ => agg

/-! ## Unfolding lemmas for the traversal -/

theorem extractAux_gt (data : Value) (agg : Agg) (maxD curD : Nat) (h : curD > maxD) :
    extractAux data agg maxD curD = agg := by
  rw [extractAux.eq_def]
  simp [h]

theorem extractAux_not_obj (data : Value) (agg : Agg) (maxD curD : Nat)
    (hno : isObjV data = false) : extractAux data agg maxD curD = agg := by
  rw [extractAux.eq_def]
  cases data with
  | obj attrs => simp [isObjV] at hno
  | vstr s => simp
  | vlist l => simp
  | vnull => simp

theorem extractAux_obj (attrs : List (String × Value)) (agg : Agg) (maxD curD : Nat)
    (h : ¬ curD > maxD) :
    extractAux (Value.obj attrs) agg maxD curD =
      attrs.foldl (attrStep (fun c a => extractAux c a maxD (curD + 1)))
        ((elemsChildren attrs).foldl (fun a e => extractAux e a maxD (curD + 1))
          (classifyNode attrs agg)) := by
  rw [extractAux.eq_def]
  simp only [h, dite_false]
  unfold elemsChildren
  cases hl : lookupAttr attrs "elements" with
  | none => simp
  | some v => cases v <;> simp

theorem visitsAux_gt (data : Value) (maxD curD : Nat) (h : curD > maxD) :
    visitsAux data maxD curD = [] := by
  rw [visitsAux.eq_def]
  simp [h]

theorem visitsAux_not_obj (data : Value) (maxD curD : Nat)
    (hno : isObjV data = false) : visitsAux data maxD curD = [] := by
  rw [visitsAux.eq_def]
  cases data with
  | obj attrs => simp [isObjV] at hno
  | vstr s => simp
  | vlist l => simp
  | vnull => simp

theorem visitsAux_obj (attrs : List (String × Value)) (maxD curD : Nat)
    (h : ¬ curD > maxD) :
    visitsAux (Value.obj attrs) maxD curD =
      (if isEntityDict attrs then [Value.obj attrs] else []) ++
      (elemsChildren attrs).flatMap (fun e => visitsAux e maxD (curD + 1)) ++
      (attrChildren attrs).flatMap (fun c => visitsAux c maxD (curD + 1)) := by
  rw [visitsAux.eq_def]
  simp [h]

/-! ## The classification step, case-split -/

theorem classifyNode_not_entity (attrs : List (String × Value)) (agg : Agg)
    (h : isEntityDict attrs = false) : classifyNode attrs agg = agg := by
  unfold classifyNode isEntityDict at *
  cases hl : lookupAttr attrs "speckle_type" with
  | none => rfl
  | some t =>
      rw [hl] at h
      by_cases ht : truthy t = true
      · have : t = meshSentinel := by
          by_contra hm
          simp [ht, hm] at h
        simp [ht, this]
      · simp [Bool.not_eq_true] at ht
        simp [ht]

theorem classifyNode_entity (attrs : List (String × Value)) (agg : Agg) (t : Value)
    (hl : lookupAttr attrs "speckle_type" = some t) (ht : truthy t = true)
    (hm : t ≠ meshSentinel) :
    classifyNode attrs agg = aggUpdate agg t (buildInstance attrs) := by
  unfold classifyNode
  simp [hl, ht, hm]

/-! ## Fold helpers -/

theorem foldl_flatMap_rec {α γ β : Type _} (step : β → γ → β) (F : α → β → β)
    (V : α → List γ) (l : List α)
    (h : ∀ x ∈ l, ∀ b, F x b = (V x).foldl step b) (b : β) :
    l.foldl (fun b x => F x b) b = (l.flatMap V).foldl step b := by
  induction l generalizing b with
  | nil => rfl
  | cons x xs ih =>
      rw [List.foldl_cons, List.flatMap_cons, List.foldl_append,
        h x (by simp) b]
      exact ih (fun y hy b2 => h y (by simp [hy]) b2) _

theorem foldl_items_rec (st : Agg → Value → Agg) (R : Value → Agg → Agg)
    (V : Value → List Value) (items : List Value)
    (h : ∀ i ∈ items, isObjV i = true → ∀ a, R i a = (V i).foldl st a) (a : Agg) :
    items.foldl (itemStep R) a = ((items.filter isObjV).flatMap V).foldl st a := by
  induction items generalizing a with
  | nil => rfl
  | cons i is ih =>
      rw [List.foldl_cons]
      by_cases hi : isObjV i = true
      · rw [List.filter_cons_of_pos hi, List.flatMap_cons, List.foldl_append]
        have hstep : itemStep R a i = (V i).foldl st a := by
          rw [itemStep, if_pos hi, h i (by simp) hi a]
        rw [hstep]
        exact ih (fun j hj hjo b => h j (by simp [hj]) hjo b) _
      · rw [List.filter_cons_of_neg (by simpa using hi)]
        have hstep : itemStep R a i = a := by
          rw [itemStep, if_neg (by simpa using hi)]
        rw [hstep]
        exact ih (fun j hj hjo b => h j (by simp [hj]) hjo b) _

/-! ## The traversal as a fold of classification steps over its visit list -/

theorem extract_eq_foldl_fuel (k : Nat) :
    ∀ data agg maxD curD, maxD + 1 - curD ≤ k →
      extractAux data agg maxD curD =
        (visitsAux data maxD curD).foldl (fun a u => classifyValue u a) agg := by
  induction k with
  | zero =>
      intro data agg maxD curD hk
      have h : curD > maxD := by omega
      rw [extractAux_gt data agg maxD curD h, visitsAux_gt data maxD curD h]
      rfl
  | succ k ih =>
      intro data agg maxD curD hk
      by_cases hgt : curD > maxD
      · rw [extractAux_gt data agg maxD curD hgt, visitsAux_gt data maxD curD hgt]
        rfl
      · cases data with
        | vstr s =>
            rw [extractAux_not_obj _ _ _ _ (by rfl), visitsAux_not_obj _ _ _ (by rfl)]
            rfl
        | vlist l =>
            rw [extractAux_not_obj _ _ _ _ (by rfl), visitsAux_not_obj _ _ _ (by rfl)]
            rfl
        | vnull =>
            rw [extractAux_not_obj _ _ _ _ (by rfl), visitsAux_not_obj _ _ _ (by rfl)]
            rfl
        | obj attrs =>
            have hk1 : maxD + 1 - (curD + 1) ≤ k := by omega
            rw [extractAux_obj attrs agg maxD curD hgt, visitsAux_obj attrs maxD curD hgt]
            rw [List.foldl_append, List.foldl_append]
            have stepA :
                (if isEntityDict attrs then [Value.obj attrs] else []).foldl
                    (fun a u => classifyValue u a) agg = classifyNode attrs agg := by
              by_cases ent : isEntityDict attrs = true
              · simp [ent, classifyValue]
              · simp only [Bool.not_eq_true] at ent
                simp [ent, classifyNode_not_entity attrs agg ent]
            rw [stepA]
            have stepB :
                (elemsChildren attrs).foldl (fun a e => extractAux e a maxD (curD + 1))
                    (classifyNode attrs agg) =
                  ((elemsChildren attrs).flatMap (fun e => visitsAux e maxD (curD + 1))).foldl
                    (fun a u => classifyValue u a) (classifyNode attrs agg) :=
              foldl_flatMap_rec (fun a u => classifyValue u a)
                (fun e a => extractAux e a maxD (curD + 1))
                (fun e => visitsAux e maxD (curD + 1)) (elemsChildren attrs)
                (fun e _ b => ih e b maxD (curD + 1) hk1) (classifyNode attrs agg)
            rw [stepB]
            have stepC :
                ∀ b, attrs.foldl (attrStep (fun c a => extractAux c a maxD (curD + 1))) b =
                  ((attrChildren attrs).flatMap (fun c => visitsAux c maxD (curD + 1))).foldl
                    (fun a u => classifyValue u a) b := by
              intro b
              unfold attrChildren
              rw [List.flatMap_assoc]
              refine foldl_flatMap_rec (fun a u => classifyValue u a)
                (fun p a => attrStep (fun c a => extractAux c a maxD (curD + 1)) a p)
                (fun p => (attrChildOf p).flatMap (fun c => visitsAux c maxD (curD + 1)))
                attrs ?_ b
              intro p _ b2
              unfold attrStep attrChildOf
              by_cases hu : startsWithUnderscore p.1
              · simp [hu]
              · simp only [hu, if_false, Bool.false_eq_true]
                cases hv : p.2 with
                | vlist items =>
                    exact foldl_items_rec (fun a u => classifyValue u a)
                      (fun c a => extractAux c a maxD (curD + 1))
                      (fun c => visitsAux c maxD (curD + 1)) items
                      (fun i _ _ a => ih i a maxD (curD + 1) hk1) b2
                | vstr s => simp
                | obj attrs2 => simp
                | vnull => simp
            exact stepC _

/-- The traversal equals the fold of classification steps over its visit
list (fuel-free form). -/
theorem extract_eq_foldl (data : Value) (agg : Agg) (maxD curD : Nat) :
    extractAux data agg maxD curD =
      (visitsAux data maxD curD).foldl (fun a u => classifyValue u a) agg :=
  extract_eq_foldl_fuel (maxD + 1 - curD) data agg maxD curD (Nat.le_refl _)

/-! ## Visited entities are exactly the classifiable nodes within the
depth bound -/

theorem visits_mem_fuel (k : Nat) :
    ∀ data maxD curD u, maxD + 1 - curD ≤ k →
      (u ∈ visitsAux data maxD curD ↔
        isEntityValue u = true ∧ ∃ j, curD + j ≤ maxD ∧ ReachN j data u) := by
  induction k with
  | zero =>
      intro data maxD curD u hk
      have h : curD > maxD := by omega
      rw [visitsAux_gt _ _ _ h]
      simp only [List.not_mem_nil, false_iff, not_and]
      rintro _ ⟨j, hj, _⟩
      omega
  | succ k ih =>
      intro data maxD curD u hk
      by_cases hgt : curD > maxD
      · rw [visitsAux_gt _ _ _ hgt]
        simp only [List.not_mem_nil, false_iff, not_and]
        rintro _ ⟨j, hj, _⟩
        omega
      · cases data with
        | obj attrs =>
            rw [visitsAux_obj attrs maxD curD hgt]
            simp only [List.mem_append, List.mem_flatMap]
            constructor
            · rintro ((h1 | ⟨e, he, hu⟩) | ⟨c, hc, hu⟩)
              · by_cases ent : isEntityDict attrs = true
                · rw [if_pos ent] at h1
                  simp only [List.mem_singleton] at h1
                  subst h1
                  exact ⟨by simpa [isEntityValue] using ent, 0, by omega, ReachN.refl _⟩
                · rw [if_neg ent] at h1
                  simp at h1
              · obtain ⟨hent, j, hj, hr⟩ := (ih e maxD (curD + 1) u (by omega)).1 hu
                refine ⟨hent, j + 1, by omega, ReachN.step ?_ hr⟩
                simp [childrenOf, List.mem_append]
                exact Or.inl he
              · obtain ⟨hent, j, hj, hr⟩ := (ih c maxD (curD + 1) u (by omega)).1 hu
                refine ⟨hent, j + 1, by omega, ReachN.step ?_ hr⟩
                simp [childrenOf, List.mem_append]
                exact Or.inr hc
            · rintro ⟨hent, j, hj, hr⟩
              cases hr with
              | refl =>
                  have ent : isEntityDict attrs = true := by simpa [isEntityValue] using hent
                  left; left
                  rw [if_pos ent]
                  simp
              | @step j2 v2 c2 u2 hc hr2 =>
                  have hc2 : c2 ∈ elemsChildren attrs ∨ c2 ∈ attrChildren attrs := by
                    simpa [childrenOf, List.mem_append] using hc
                  have hrec : u ∈ visitsAux c2 maxD (curD + 1) :=
                    (ih c2 maxD (curD + 1) u (by omega)).2 ⟨hent, j2, by omega, hr2⟩
                  rcases hc2 with hce | hca
                  · exact Or.inl (Or.inr ⟨c2, hce, hrec⟩)
                  · exact Or.inr ⟨c2, hca, hrec⟩
        | vstr s =>
            rw [visitsAux_not_obj _ _ _ (by rfl)]
            simp only [List.not_mem_nil, false_iff, not_and]
            rintro hent ⟨j, hj, hr⟩
            cases hr with
            | refl => simp [isEntityValue] at hent
            | @step j2 v2 c2 u2 hc hr2 => simp [childrenOf] at hc
        | vlist l =>
            rw [visitsAux_not_obj _ _ _ (by rfl)]
            simp only [List.not_mem_nil, false_iff, not_and]
            rintro hent ⟨j, hj, hr⟩
            cases hr with
            | refl => simp [isEntityValue] at hent
            | @step j2 v2 c2 u2 hc hr2 => simp [childrenOf] at hc
        | vnull =>
            rw [visitsAux_not_obj _ _ _ (by rfl)]
            simp only [List.not_mem_nil, false_iff, not_and]
            rintro hent ⟨j, hj, hr⟩
            cases hr with
            | refl => simp [isEntityValue] at hent
            | @step j2 v2 c2 u2 hc hr2 => simp [childrenOf] at hc

/-- Membership in the visit list characterized by classifiability plus
depth-bounded reachability (fuel-free form). -/
theorem visits_mem (data : Value) (maxD curD : Nat) (u : Value) :
    u ∈ visitsAux data maxD curD ↔
      isEntityValue u = true ∧ ∃ j, curD + j ≤ maxD ∧ ReachN j data u :=
  visits_mem_fuel (maxD + 1 - curD) data maxD curD u (Nat.le_refl _)

/-! ## The count/sample invariant -/

theorem aggUpdate_consistent (agg : Agg) (key : Value) (info : InstanceInfo)
    (h : countConsistent agg) : countConsistent (aggUpdate agg key info) := by
  induction agg with
  | nil =>
      intro p hp
      simp only [aggUpdate, List.mem_singleton] at hp
      subst hp
      rfl
  | cons q rest ih =>
      obtain ⟨k, b⟩ := q
      rw [aggUpdate]
      by_cases hk : k = key
      · rw [if_pos hk]
        intro p hp
        rcases List.mem_cons.1 hp with h1 | h2
        · subst h1
          have hb : b.count = b.instances.length := h (k, b) (List.mem_cons_self ..)
          simp [hb]
        · exact h p (List.mem_cons_of_mem _ h2)
      · rw [if_neg hk]
        intro p hp
        rcases List.mem_cons.1 hp with h1 | h2
        · subst h1
          exact h (k, b) (List.mem_cons_self ..)
        · exact ih (fun q hq => h q (List.mem_cons_of_mem _ hq)) p h2

theorem classifyValue_consistent (v : Value) (agg : Agg)
    (h : countConsistent agg) : countConsistent (classifyValue v agg) := by
  cases v with
  | obj attrs =>
      show countConsistent (classifyNode attrs agg)
      unfold classifyNode
      cases lookupAttr attrs "speckle_type" with
      | none => exact h
      | some t =>
          by_cases ht : truthy t = true
          · by_cases hm : t = meshSentinel
            · simpa [ht, hm] using h
            · simpa [ht, hm] using aggUpdate_consistent agg t (buildInstance attrs) h
          · simp only [Bool.not_eq_true] at ht
            simpa [ht] using h
  | vstr s => exact h
  | vlist l => exact h
  | vnull => exact h

theorem foldl_classify_consistent (l : List Value) (agg : Agg)
    (h : countConsistent agg) :
    countConsistent (l.foldl (fun a u => classifyValue u a) agg) := by
  induction l generalizing agg with
  | nil => exact h
  | cons x xs ih =>
      rw [List.foldl_cons]
      exact ih _ (classifyValue_consistent x agg h)

/-! ## The ranking sort -/

theorem mem_insertRanked (x z : Value × Bucket) (l : Agg) :
    z ∈ insertRanked x l ↔ z = x ∨ z ∈ l := by
  induction l with
  | nil => simp [insertRanked]
  | cons y ys ih =>
      rw [insertRanked]
      by_cases hy : y.2.count > x.2.count
      · rw [if_pos hy]
        simp only [List.mem_cons, ih]
        tauto
      · rw [if_neg hy]
        simp only [List.mem_cons]

theorem insertRanked_pairwise (x : Value × Bucket) (l : Agg)
    (h : List.Pairwise (fun a b => b.2.count ≤ a.2.count) l) :
    List.Pairwise (fun a b => b.2.count ≤ a.2.count) (insertRanked x l) := by
  induction l with
  | nil => simp [insertRanked]
  | cons y ys ih =>
      rw [insertRanked]
      rcases List.pairwise_cons.1 h with ⟨hy, hys⟩
      by_cases hgt : y.2.count > x.2.count
      · rw [if_pos hgt]
        refine List.pairwise_cons.2 ⟨?_, ih hys⟩
        intro z hz
        rcases (mem_insertRanked x z ys).1 hz with h1 | h2
        · subst h1
          omega
        · exact hy z h2
      · rw [if_neg hgt]
        refine List.pairwise_cons.2 ⟨?_, h⟩
        intro z hz
        rcases List.mem_cons.1 hz with h1 | h2
        · subst h1
          omega
        · have := hy z h2
          omega

theorem ranked_pairwise (l : Agg) :
    List.Pairwise (fun a b => b.2.count ≤ a.2.count) (ranked l) := by
  induction l with
  | nil => simp [ranked]
  | cons x xs ih =>
      show List.Pairwise _ (insertRanked x (ranked xs))
      exact insertRanked_pairwise x (ranked xs) ih

theorem filter_insertRanked (c : Nat) (x : Value × Bucket) (l : Agg) :
    (insertRanked x l).filter (fun p => p.2.count == c) =
      if x.2.count == c then x :: l.filter (fun p => p.2.count == c)
      else l.filter (fun p => p.2.count == c) := by
  induction l with
  | nil =>
      rw [insertRanked]
      by_cases hx : (x.2.count == c) = true
      · simp [hx]
      · simp only [Bool.not_eq_true] at hx
        simp [hx]
  | cons y ys ih =>
      rw [insertRanked]
      by_cases hgt : y.2.count > x.2.count
      · rw [if_pos hgt]
        by_cases hx : (x.2.count == c) = true
        · have hxc : x.2.count = c := by simpa using hx
          have hyc : (y.2.count == c) = false := by
            simp only [beq_eq_false_iff_ne, ne_eq]
            omega
          rw [List.filter_cons_of_neg (by simp [hyc]), ih]
          rw [List.filter_cons_of_neg (by simp [hyc])]
        · simp only [Bool.not_eq_true] at hx
          rw [if_neg (by simp [hx])] at ih ⊢
          by_cases hy : (y.2.count == c) = true
          · rw [List.filter_cons_of_pos (by simp [hy]), ih,
              List.filter_cons_of_pos (by simp [hy])]
          · simp only [Bool.not_eq_true] at hy
            rw [List.filter_cons_of_neg (by simp [hy]), ih,
              List.filter_cons_of_neg (by simp [hy])]
      · rw [if_neg hgt]
        by_cases hx : (x.2.count == c) = true
        · rw [if_pos (by simp [hx]), List.filter_cons_of_pos (by simp [hx])]
        · simp only [Bool.not_eq_true] at hx
          rw [if_neg (by simp [hx]), List.filter_cons_of_neg (by simp [hx])]

theorem ranked_filter (l : Agg) (c : Nat) :
    (ranked l).filter (fun p => p.2.count == c) =
      l.filter (fun p => p.2.count == c) := by
  induction l with
  | nil => rfl
  | cons x xs ih =>
      show (insertRanked x (ranked xs)).filter _ = _
      rw [filter_insertRanked c x (ranked xs), ih]
      by_cases hx : (x.2.count == c) = true
      · rw [if_pos hx, List.filter_cons_of_pos (by simp [hx])]
      · simp only [Bool.not_eq_true] at hx
        rw [if_neg (by simp [hx]), List.filter_cons_of_neg (by simp [hx])]

/-! ## Fuel-independence of the store-model traversal -/

theorem gItemStep_ext (R1 R2 : GValue → GAgg → GAgg)
    (h : ∀ c a, R1 c a = R2 c a) (a : GAgg) (i : GValue) :
    gItemStep R1 a i = gItemStep R2 a i := by
  unfold gItemStep
  by_cases hi : isGRef i = true
  · rw [if_pos hi, if_pos hi, h]
  · rw [if_neg hi, if_neg hi]

theorem gAttrStep_ext (R1 R2 : GValue → GAgg → GAgg)
    (h : ∀ c a, R1 c a = R2 c a) (a : GAgg) (p : String × GValue) :
    gAttrStep R1 a p = gAttrStep R2 a p := by
  unfold gAttrStep
  by_cases hu : startsWithUnderscore p.1
  · rw [if_pos hu, if_pos hu]
  · rw [if_neg hu, if_neg hu]
    cases p.2 with
    | glist items =>
        exact List.foldl_ext _ _ a (fun b i _ => gItemStep_ext R1 R2 h b i)
    | gstr s => rfl
    | gref id => rfl
    | gnull => rfl

theorem extractGF_stable (g : GGraph) :
    ∀ f1 f2 v agg maxD curD, maxD + 1 ≤ curD + f1 → maxD + 1 ≤ curD + f2 →
      extractGF g f1 v agg maxD curD = extractGF g f2 v agg maxD curD := by
  intro f1
  induction f1 with
  | zero =>
      intro f2 v agg maxD curD h1 h2
      have hgt : curD > maxD := by omega
      cases f2 with
      | zero => rfl
      | succ f2p => simp [extractGF, hgt]
  | succ f ihf =>
      intro f2 v agg maxD curD h1 h2
      cases f2 with
      | zero =>
          have hgt : curD > maxD := by omega
          simp [extractGF, hgt]
      | succ f2p =>
          by_cases hgt : curD > maxD
          · simp [extractGF, hgt]
          · simp only [extractGF, if_neg hgt]
            cases v with
            | gref id =>
                cases hnode : g.get? id with
                | none => simp only [hnode]
                | some node =>
                    simp only [hnode]
                    have hrec : ∀ c a, extractGF g f c a maxD (curD + 1) =
                        extractGF g f2p c a maxD (curD + 1) :=
                      fun c a => ihf f2p c a maxD (curD + 1) (by omega) (by omega)
                    have ha2 :
                        (match glookupAttr node.attrs "elements" with
                          | some (GValue.glist es) =>
                              es.foldl (fun a e => extractGF g f e a maxD (curD + 1))
                                (gclassifyNode node.attrs agg)
                          | _ => gclassifyNode node.attrs agg) =
                        (match glookupAttr node.attrs "elements" with
                          | some (GValue.glist es) =>
                              es.foldl (fun a e => extractGF g f2p e a maxD (curD + 1))
                                (gclassifyNode node.attrs agg)
                          | _ => gclassifyNode node.attrs agg) := by
                      cases hl : glookupAttr node.attrs "elements" with
                      | none => rfl
                      | some w =>
                          cases w with
                          | glist es =>
                              exact List.foldl_ext _ _ _ (fun b e _ => hrec e b)
                          | gstr s => rfl
                          | gref id2 => rfl
                          | gnull => rfl
                    rw [ha2]
                    exact List.foldl_ext _ _ _
                      (fun b p _ => gAttrStep_ext _ _ hrec b p)
            | gstr s => rfl
            | glist l => rfl
            | gnull => rfl

/-! ## The fuel twin computes the traversal -/

theorem itemStep_ext (R1 R2 : Value → Agg → Agg)
    (h : ∀ c a, R1 c a = R2 c a) (a : Agg) (i : Value) :
    itemStep R1 a i = itemStep R2 a i := by
  unfold itemStep
  by_cases hi : isObjV i = true
  · rw [if_pos hi, if_pos hi, h]
  · rw [if_neg hi, if_neg hi]

theorem attrStep_ext (R1 R2 : Value → Agg → Agg)
    (h : ∀ c a, R1 c a = R2 c a) (a : Agg) (p : String × Value) :
    attrStep R1 a p = attrStep R2 a p := by
  unfold attrStep
  by_cases hu : startsWithUnderscore p.1
  · rw [if_pos hu, if_pos hu]
  · rw [if_neg hu, if_neg hu]
    cases p.2 with
    | vlist items =>
        exact List.foldl_ext _ _ a (fun b i _ => itemStep_ext R1 R2 h b i)
    | vstr s => rfl
    | obj attrs2 => rfl
    | vnull => rfl

theorem extractFuel_eq :
    ∀ fuel data agg maxD curD, maxD + 1 - curD ≤ fuel →
      extractFuel fuel data agg maxD curD = extractAux data agg maxD curD := by
  intro fuel
  induction fuel with
  | zero =>
      intro data agg maxD curD h
      have hgt : curD > maxD := by omega
      rw [extractAux_gt data agg maxD curD hgt]
      rfl
  | succ f ih =>
      intro data agg maxD curD h
      by_cases hgt : curD > maxD
      · rw [extractAux_gt _ _ _ _ hgt]
        simp [extractFuel, hgt]
      · cases data with
        | obj attrs =>
            rw [extractAux_obj attrs agg maxD curD hgt]
            simp only [extractFuel, if_neg hgt]
            have hrec : ∀ c a, extractFuel f c a maxD (curD + 1) =
                extractAux c a maxD (curD + 1) :=
              fun c a => ih c a maxD (curD + 1) (by omega)
            have ha2 :
                (match lookupAttr attrs "elements" with
                  | some (Value.vlist es) =>
                      es.foldl (fun a e => extractFuel f e a maxD (curD + 1))
                        (classifyNode attrs agg)
                  | _ => classifyNode attrs agg) =
                (elemsChildren attrs).foldl (fun a e => extractAux e a maxD (curD + 1))
                  (classifyNode attrs agg) := by
              unfold elemsChildren
              cases hl : lookupAttr attrs "elements" with
              | none => simp
              | some w =>
                  cases w with
                  | vlist es => exact List.foldl_ext _ _ _ (fun b e _ => hrec e b)
                  | vstr s => simp
                  | obj attrs2 => simp
                  | vnull => simp
            rw [ha2]
            exact List.foldl_ext _ _ _ (fun b p _ => attrStep_ext _ _ hrec b p)
        | vstr s =>
            rw [extractAux_not_obj _ _ _ _ (by rfl)]
            simp [extractFuel, hgt]
        | vlist l =>
            rw [extractAux_not_obj _ _ _ _ (by rfl)]
            simp [extractFuel, hgt]
        | vnull =>
            rw [extractAux_not_obj _ _ _ _ (by rfl)]
            simp [extractFuel, hgt]

/-! ## The error-monad classification never fails -/

theorem getattr3_ok (attrs : List (String × Value)) (name : String) (d : Value) :
    getattr3 attrs name d = Except.ok (getattrD attrs name d) := by
  unfold getattr3 getattr2 getattrD
  cases lookupAttr attrs name <;> rfl

theorem buildInstanceE_ok (attrs : List (String × Value)) :
    buildInstanceE attrs = Except.ok (buildInstance attrs) := by
  unfold buildInstanceE buildInstance
  rw [getattr3_ok, getattr3_ok, getattr3_ok, getattr3_ok]
  rfl

theorem classifyNodeE_ok (attrs : List (String × Value)) (agg : Agg) :
    classifyNodeE attrs agg = Except.ok (classifyNode attrs agg) := by
  unfold classifyNodeE classifyNode
  cases lookupAttr attrs "speckle_type" with
  | none => rfl
  | some t =>
      by_cases ht : truthy t = true
      · by_cases hm : t = meshSentinel
        · simp [ht, hm]
        · simp [ht, hm, buildInstanceE_ok]
      · simp only [Bool.not_eq_true] at ht
        simp [ht]

/-! ## The claims -/

/-- Claim C1, counterexample: on the end-to-end scenario graph the claimed
aggregation (Wall counted 2, Door counted 1) is false: the loop over
`data.__dict__.items()` does not exclude `elements`, so every child stored
under `elements` is traversed twice. -/
theorem spec_c1_counterexample :
    ¬ ((aggFind (extract_ifc_types scenarioRoot) (Value.vstr "Wall")).map Bucket.count =
          some 2 ∧
        (aggFind (extract_ifc_types scenarioRoot) (Value.vstr "Door")).map Bucket.count =
          some 1) := by
  have h : extract_ifc_types scenarioRoot = extractFuel 11 scenarioRoot [] 10 0 :=
    (extractFuel_eq 11 scenarioRoot [] 10 0 (by omega)).symm
  rw [h]
  decide

/-- Claim C1, amended: on the end-to-end scenario graph,
`extract_ifc_types` with `max_depth=10` and a fresh empty aggregation
yields Wall with count 6 and samples g1, g3, g3, g1, g3, g3 and Door with
count 2 and samples g2, g2 (the Mesh node still excluded): every child
reachable through `elements` is visited once by the dedicated `elements`
branch and once more by the generic `__dict__` list loop. -/
theorem spec_c1_actual :
    extract_ifc_types scenarioRoot =
      [(Value.vstr "Wall",
        { count := 6,
          instances := [recOf "g1", recOf "g3", recOf "g3",
                        recOf "g1", recOf "g3", recOf "g3"] }),
       (Value.vstr "Door", { count := 2, instances := [recOf "g2", recOf "g2"] })] := by
  have h : extract_ifc_types scenarioRoot = extractFuel 11 scenarioRoot [] 10 0 :=
    (extractFuel_eq 11 scenarioRoot [] 10 0 (by omega)).symm
  rw [h]
  decide

/-- Claim C2: a call with `current_depth > max_depth` returns the
aggregation unchanged, visiting nothing; the traversal equals the fold of
classification steps over its visit list; a node is in the visit list
exactly when it is classifiable and reachable along some chain of `j`
recursive-call edges with `current_depth + j ≤ max_depth` (root at depth
0, each recursion step adding 1); and the public entry uses the default
`max_depth = 10` with a fresh empty aggregation. -/
theorem spec_c2_depth_bound (v : Value) (agg : Agg) (maxD curD : Nat) :
    (curD > maxD → extractAux v agg maxD curD = agg) ∧
    (extractAux v agg maxD curD =
      (visitsAux v maxD curD).foldl (fun a u => classifyValue u a) agg) ∧
    (∀ u, u ∈ visitsAux v maxD curD ↔
      isEntityValue u = true ∧ ∃ j, curD + j ≤ maxD ∧ ReachN j v u) ∧
    extract_ifc_types v = extractAux v [] 10 0 :=
  ⟨fun h => extractAux_gt v agg maxD curD h, extract_eq_foldl v agg maxD curD,
    fun u => visits_mem v maxD curD u, rfl⟩

/-- Claim C3: a node whose `speckle_type` is the geometry sentinel is not
counted and contributes no record (its classification step is the
identity), while the traversal still walks its `elements` collection and
its other list-valued attributes on the unchanged aggregation. -/
theorem spec_c3_mesh_sentinel (attrs : List (String × Value)) (agg : Agg)
    (maxD curD : Nat) (hd : curD ≤ maxD)
    (hm : lookupAttr attrs "speckle_type" = some meshSentinel) :
    classifyNode attrs agg = agg ∧
    extractAux (Value.obj attrs) agg maxD curD =
      attrs.foldl (attrStep (fun c a => extractAux c a maxD (curD + 1)))
        ((elemsChildren attrs).foldl (fun a e => extractAux e a maxD (curD + 1)) agg) := by
  have hcl : classifyNode attrs agg = agg := by
    unfold classifyNode
    rw [hm]
    simp [show truthy meshSentinel = true from rfl]
  refine ⟨hcl, ?_⟩
  rw [extractAux_obj attrs agg maxD curD (by omega), hcl]

/-- Claim C3, witness: the scenario's mesh node at depth 0 with
`max_depth = 10`. -/
theorem spec_c3_mesh_sentinel_witness :
    classifyNode [("speckle_type", Value.vstr "Objects.Geometry.Mesh")] [] = [] ∧
    extractAux (Value.obj [("speckle_type", Value.vstr "Objects.Geometry.Mesh")]) [] 10 0 =
      [("speckle_type", Value.vstr "Objects.Geometry.Mesh")].foldl
        (attrStep (fun c a => extractAux c a 10 1))
        ((elemsChildren [("speckle_type", Value.vstr "Objects.Geometry.Mesh")]).foldl
          (fun a e => extractAux e a 10 1) []) :=
  spec_c3_mesh_sentinel [("speckle_type", Value.vstr "Objects.Geometry.Mesh")] [] 10 0
    (by omega) (by rfl)

/-- Claim C4: each field of the record built for a classifiable node
equals the node's attribute when present and the string Unknown exactly
when missing, and the classification step of such a node appends exactly
that record; building the record is a total function, applied here to an
arbitrary attribute dict. -/
theorem spec_c4_default_substitution (attrs : List (String × Value)) :
    (∀ v, lookupAttr attrs "GlobalId" = some v → (buildInstance attrs).GlobalId = v) ∧
    (lookupAttr attrs "GlobalId" = none → (buildInstance attrs).GlobalId = Value.vstr "Unknown") ∧
    (∀ v, lookupAttr attrs "Name" = some v → (buildInstance attrs).Name = v) ∧
    (lookupAttr attrs "Name" = none → (buildInstance attrs).Name = Value.vstr "Unknown") ∧
    (∀ v, lookupAttr attrs "ObjectType" = some v → (buildInstance attrs).ObjectType = v) ∧
    (lookupAttr attrs "ObjectType" = none →
      (buildInstance attrs).ObjectType = Value.vstr "Unknown") ∧
    (∀ v, lookupAttr attrs "Tag" = some v → (buildInstance attrs).Tag = v) ∧
    (lookupAttr attrs "Tag" = none → (buildInstance attrs).Tag = Value.vstr "Unknown") ∧
    (∀ t agg, lookupAttr attrs "speckle_type" = some t → truthy t = true →
      t ≠ meshSentinel → classifyNode attrs agg = aggUpdate agg t (buildInstance attrs)) := by
  refine ⟨?_, ?_, ?_, ?_, ?_, ?_, ?_, ?_,
    fun t agg hl ht hm => classifyNode_entity attrs agg t hl ht hm⟩
  all_goals
    first
    | (intro v h
       simp [buildInstance, getattrD, h])
    | (intro h
       simp [buildInstance, getattrD, h, unknownV])

/-- Claim C5: starting from any count-consistent aggregation (the empty
one included), the traversal returns an aggregation in which every bucket
has `count` equal to the length of `instances`; each single classification
step (`aggUpdate`) preserves the invariant. -/
theorem spec_c5_count_consistency (v : Value) (agg : Agg) (maxD curD : Nat)
    (h : countConsistent agg) :
    countConsistent (extractAux v agg maxD curD) ∧
    countConsistent (extract_ifc_types v) ∧
    (∀ key info a, countConsistent a → countConsistent (aggUpdate a key info)) := by
  refine ⟨?_, ?_, fun key info a ha => aggUpdate_consistent a key info ha⟩
  · rw [extract_eq_foldl v agg maxD curD]
    exact foldl_classify_consistent _ agg h
  · show countConsistent (extractAux v [] 10 0)
    rw [extract_eq_foldl v [] 10 0]
    exact foldl_classify_consistent _ [] (by intro p hp; simp at hp)

/-- Claim C5, witness: the invariant from the empty aggregation on the
scenario's first node. -/
theorem spec_c5_count_consistency_witness :
    countConsistent [] ∧ countConsistent (extractAux nodeA [] 10 0) :=
  ⟨by intro p hp; simp at hp,
    (spec_c5_count_consistency nodeA [] 10 0 (by intro p hp; simp at hp)).1⟩

/-- Claim C6: the ranking sort of `display_results` returns the buckets in
descending count order; among buckets of equal count the original
insertion order is kept (the filter of the output at each count value is
the filter of the input); buckets inserted as A with count 3, B with count
5, C with count 5 rank as B, C, A. -/
theorem spec_c6_ranking (l : Agg) :
    List.Pairwise (fun a b => b.2.count ≤ a.2.count) (ranked l) ∧
    (∀ c, (ranked l).filter (fun p => p.2.count == c) =
      l.filter (fun p => p.2.count == c)) ∧
    ranked [(Value.vstr "A", { count := 3, instances := [] }),
            (Value.vstr "B", { count := 5, instances := [] }),
            (Value.vstr "C", { count := 5, instances := [] })] =
      [(Value.vstr "B", { count := 5, instances := [] }),
       (Value.vstr "C", { count := 5, instances := [] }),
       (Value.vstr "A", { count := 3, instances := [] })] :=
  ⟨ranked_pairwise l, ranked_filter l, by decide⟩

/-- Claim C7: two successive calls on the same graph, each with
`ifc_types=None` — which the source replaces by a fresh empty dict — return
equal aggregations, bucket for bucket.  In the embedding the input graph is
an immutable value and the traversal threads no other state, so both runs
are the same application of `extract_call`; the last conjunct records that
the `None` default really starts from the empty aggregation. -/
theorem spec_c7_repeatable (data : Value) (maxD : Nat) :
    extract_call data Option.none maxD 0 = extract_call data Option.none maxD 0 ∧
    (∀ k, aggFind (extract_call data Option.none maxD 0) k =
      aggFind (extract_call data Option.none maxD 0) k) ∧
    extract_call data Option.none maxD 0 = extractAux data [] maxD 0 :=
  ⟨rfl, fun _ => rfl, rfl⟩

/-- Claim C8: with the two-argument `getattr` (which raises on a missing
attribute) made explicit in an error monad, the three-argument form used
by the classification step always succeeds and returns the present value
or the default; hence building the record and the whole classification
step return `Except.ok` on every attribute dict — no error branch is ever
taken. -/
theorem spec_c8_aggregation_total (attrs : List (String × Value)) :
    (∀ name d, getattr3 attrs name d = Except.ok (getattrD attrs name d)) ∧
    buildInstanceE attrs = Except.ok (buildInstance attrs) ∧
    (∀ agg, classifyNodeE attrs agg = Except.ok (classifyNode attrs agg)) :=
  ⟨fun name d => getattr3_ok attrs name d, buildInstanceE_ok attrs,
    fun agg => classifyNodeE_ok attrs agg⟩

/-- Claim C9: over the store model, whose graphs may contain cycles, the
traversal computed with any call-stack fuel of at least
`max_depth + 1 - current_depth` returns the same aggregation: every
recursive call is at `current_depth + 1` and a call with
`current_depth > max_depth` returns immediately, so the recursion depth is
bounded by `max_depth + 1` and the function is total on cyclic graphs.
(The tree-level `extractAux` is itself accepted by the same well-founded
measure `max_depth + 1 - current_depth`.) -/
theorem spec_c9_termination (g : GGraph) (v : GValue) (agg : GAgg)
    (maxD curD f1 f2 : Nat) (h1 : maxD + 1 ≤ curD + f1) (h2 : maxD + 1 ≤ curD + f2) :
    extractGF g f1 v agg maxD curD = extractGF g f2 v agg maxD curD :=
  extractGF_stable g f1 f2 v agg maxD curD h1 h2

/-- Claim C9, witness: a one-node cyclic graph (the node's `elements`
refers back to the node itself); with `max_depth = 2` the fuels 5 and 3
both exceed the bound 3 and agree. -/
theorem spec_c9_termination_witness :
    (2 + 1 ≤ 0 + 5) ∧
    extractGF [GNode.mk [("speckle_type", GValue.gstr "Wall"),
        ("elements", GValue.glist [GValue.gref 0])]] 5 (GValue.gref 0) [] 2 0 =
      extractGF [GNode.mk [("speckle_type", GValue.gstr "Wall"),
        ("elements", GValue.glist [GValue.gref 0])]] 3 (GValue.gref 0) [] 2 0 :=
  ⟨by omega,
    spec_c9_termination [GNode.mk [("speckle_type", GValue.gstr "Wall"),
      ("elements", GValue.glist [GValue.gref 0])]] (GValue.gref 0) [] 2 0 5 3
      (by omega) (by omega)⟩

/-- Claim C10: the `__dict__` loop skips an attribute whose name starts
with an underscore, skips an attribute whose value is not a list, and
within a list skips every item without a `__dict__` — all without error
and without touching the aggregation; a child contributed by an attribute
is always an object item of a non-underscore list attribute; and the
traversal's `__dict__` pass is exactly the fold of these guarded steps. -/
theorem spec_c10_secondary_guards (n : String) (v : Value)
    (attrs : List (String × Value)) (R : Value → Agg → Agg) (agg : Agg)
    (maxD curD : Nat) :
    (startsWithUnderscore n = true → attrStep R agg (n, v) = agg) ∧
    ((∀ items, v ≠ Value.vlist items) → attrStep R agg (n, v) = agg) ∧
    (∀ i, isObjV i = false → itemStep R agg i = agg) ∧
    (∀ u, u ∈ attrChildOf (n, v) →
      startsWithUnderscore n = false ∧ isObjV u = true ∧
        ∃ items, v = Value.vlist items ∧ u ∈ items) ∧
    (¬ curD > maxD → extractAux (Value.obj attrs) agg maxD curD =
      attrs.foldl (attrStep (fun c a => extractAux c a maxD (curD + 1)))
        ((elemsChildren attrs).foldl (fun a e => extractAux e a maxD (curD + 1))
          (classifyNode attrs agg))) := by
  refine ⟨?_, ?_, ?_, ?_, fun h => extractAux_obj attrs agg maxD curD h⟩
  · intro h
    unfold attrStep
    rw [if_pos (by simpa using h)]
  · intro h
    unfold attrStep
    by_cases hu : startsWithUnderscore n = true
    · rw [if_pos (by simpa using hu)]
    · rw [if_neg (by simpa using hu)]
      cases hv : v with
      | vlist items => exact absurd hv (h items)
      | vstr s => rfl
      | obj attrs2 => rfl
      | vnull => rfl
  · intro i h
    unfold itemStep
    rw [if_neg (by simp [h])]
  · intro u hu
    unfold attrChildOf at hu
    by_cases hn : startsWithUnderscore n = true
    · rw [if_pos (by simpa using hn)] at hu
      simp at hu
    · rw [if_neg (by simpa using hn)] at hu
      simp only [Bool.not_eq_true] at hn
      cases hv : v with
      | vlist items =>
          rw [hv] at hu
          simp only [List.mem_filter] at hu
          exact ⟨hn, hu.2, items, rfl, hu.1⟩
      | vstr s => rw [hv] at hu; simp at hu
      | obj attrs2 => rw [hv] at hu; simp at hu
      | vnull => rw [hv] at hu; simp at hu
